import Mathlib

/-!
Shallow embedding of `src/classes.js` (fldoc): the documentation object model
built from parsed JSON and its LuaDoc string renderers.

JavaScript values produced by `JSON.parse` (plus `undefined` for absent object
properties) are modelled by `JsValue`.  Numbers are modelled as `Int`: no claim
depends on non-integer or NaN arithmetic.  A JavaScript exception (TypeError on
a property access or method call of `null`/`undefined`) is modelled by `Option`
results, `none` meaning the JS code throws.
-/

namespace Fldoc

/-- A JavaScript value as it can appear in the parsed JSON documents,
together with `undefined` (result of reading an absent property). -/
inductive JsValue where
  | undef
  | null
  | bool (b : Bool)
  | num (n : Int)
  | str (s : String)
  | arr (elems : List JsValue)
  | obj (fields : List (String × JsValue))
deriving Repr

/-- JS truthiness: `undefined`, `null`, `false`, `0` and the empty string are
falsy; every array and object is truthy. -/
def JsValue.truthy : JsValue → Bool
  | .undef => false
  | .null => false
  | .bool b => b
  | .num n => n != 0
  | .str s => s != ""
  | .arr _ => true
  | .obj _ => true

/-- First field with the given name in an object field list. -/
def JsValue.getFields : List (String × JsValue) → String → JsValue
  | [], _ => .undef
  | (k2, v) :: fs, k => if k2 == k then v else JsValue.getFields fs k

/-- JS property read `v.k`: returns the first field with the given name on an
object, `undefined` otherwise.  (The JS code only reads properties of values
that were checked truthy or are plain parsed-JSON objects.) -/
def JsValue.get : JsValue → String → JsValue
  | .obj fields, k => JsValue.getFields fields k
  | _, _ => (.undef : JsValue)

/-- JS logical or `a || b`: `a` when truthy, else `b`. -/
def jsOr (a b : JsValue) : JsValue := if a.truthy then a else b

mutual
/-- JS `ToString` of a value in a string-concatenation or template-literal
position: `null`/`undefined` display as words, arrays join their elements with
commas (`null`/`undefined` elements as empty), objects as `[object Object]`. -/
def JsValue.coerceStr : JsValue → String
  | .undef => "undefined"
  | .null => "null"
  | .bool b => cond b "true" "false"
  | .num n => toString n
  | .str s => s
  | .arr xs => JsValue.coerceList xs
  | .obj _ => "[object Object]"

/-- `Array.prototype.join` with separator `,` as used by array ToString. -/
def JsValue.coerceList : List JsValue → String
  | [] => ""
  | x :: xs =>
    (match x with
     | .null => ""
     | .undef => ""
     | v => JsValue.coerceStr v) ++
    (match xs with
     | [] => ""
     | _ => "," ++ JsValue.coerceList xs)
end

/-- JS loose equality `v == s` against a string literal `s`: true for the same
string; numbers, booleans, `null` and `undefined` never compare equal to the
non-numeric keyword strings used here; arrays and objects compare via their
ToPrimitive string. -/
def JsValue.looseEqStr (v : JsValue) (s : String) : Bool :=
  match v with
  | .str t => t == s
  | .arr xs => JsValue.coerceList xs == s
  | .obj _ => "[object Object]" == s
  | _ => false

/-- First element of splitting a string at newlines, as in
`this.description.split(newline)[0]`: the characters before the first
newline, the whole string when it has none. -/
def firstLine (s : String) : String :=
  String.mk (s.data.takeWhile (fun c => c != Char.ofNat 10))

/-- Join a list of strings with a separator between consecutive elements
(`Array.prototype.join` on strings). -/
def joinSep (sep : String) : List String → String
  | [] => ""
  | [x] => x
  | x :: xs => x ++ sep ++ joinSep sep xs

/-- Character-level scan of `String.prototype.replaceAll` with a non-empty
pattern: left to right, each non-overlapping occurrence of the pattern is
replaced.  The fuel argument (instantiated with the text length, which bounds
the number of scan steps) only makes the recursion structural. -/
def replaceAllChars (pat rep : List Char) : Nat → List Char → List Char
  | _, [] => []
  | 0, l => l
  | fuel + 1, c :: cs =>
    if (c :: cs).take pat.length = pat then
      rep ++ replaceAllChars pat rep fuel ((c :: cs).drop pat.length)
    else
      c :: replaceAllChars pat rep fuel cs

/-- `s.replaceAll(pat, rep)` for a non-empty pattern. -/
def replaceAll (s pat rep : String) : String :=
  String.mk (replaceAllChars pat.data rep.data s.data.length s.data)

/-! Size lemmas used for the termination of the recursive `Type` constructor,
which descends through object properties of the input JSON. -/

theorem JsValue.sizeOf_getFields_lt (fs : List (String × JsValue)) (k : String)
    (h : JsValue.getFields fs k ≠ .undef) :
    sizeOf (JsValue.getFields fs k) < sizeOf fs := by
  induction fs with
  | nil => simp [JsValue.getFields] at h
  | cons f fs ih =>
    obtain ⟨k2, v⟩ := f
    by_cases hk : (k2 == k) = true
    · simp only [JsValue.getFields, hk, if_pos] at h ⊢
      simp
      omega
    · simp only [JsValue.getFields, hk, if_neg, Bool.false_eq_true, not_false_iff] at h ⊢
      have := ih h
      simp
      omega

theorem JsValue.sizeOf_get_lt (v : JsValue) (k : String) (h : v.get k ≠ .undef) :
    sizeOf (v.get k) < sizeOf v := by
  match v with
  | .undef | .null | .bool _ | .num _ | .str _ | .arr _ => simp [JsValue.get] at h
  | .obj fields =>
    simp only [JsValue.get] at h ⊢
    have := JsValue.sizeOf_getFields_lt fields k h
    simp
    omega

theorem JsValue.sizeOf_get_lt_of_truthy (v : JsValue) (k : String)
    (h : (v.get k).truthy = true) : sizeOf (v.get k) < sizeOf v := by
  apply JsValue.sizeOf_get_lt
  intro he
  rw [he] at h
  simp [JsValue.truthy] at h

/-!
## class Type (src/classes.js lines 34-166)

A value in a type position is either a `Type` instance (`inst`, the seven
instance fields in source order) or a raw JS value stored as-is (`raw`): the
constructor stores non-object `value` / `values` / `options` payloads without
wrapping them.
-/

inductive TypeNode where
  | raw (v : JsValue)
  | inst (complex_type : JsValue) (key : Option TypeNode) (value : TypeNode)
      (values : Option (List TypeNode)) (options : Option (List TypeNode))
      (full_format : JsValue) (description : JsValue)
deriving Repr

/-- Field accessor for `this.full_format` (always an `inst` after construction). -/
def TypeNode.fullFormat : TypeNode → JsValue
  | .raw _ => .undef
  | .inst _ _ _ _ _ ff _ => ff

mutual
/-- The `Type` constructor (lines 80-127).  For a string argument only
`complex_type` is set and the other fields keep their `null` initializers.
Otherwise: `key` wraps a truthy `json.key`; `value` wraps an object-typed
`json.value` and stores other defined values raw (`null` when absent);
`values` / `options` map arrays elementwise, wrapping object elements;
`full_format` and `description` default falsy values to `null`.
(The JS code never invokes the constructor on `null`/`undefined`: every call
site guards the argument, so the property reads below cannot throw.) -/
def TypeNode.ofJson (json : JsValue) : TypeNode :=
  match json with
  | .str s => .inst (.str s) none (.raw .null) none none .null .null
  | j =>
    .inst (j.get "complex_type")
      (if h : (j.get "key").truthy then some (TypeNode.ofJson (j.get "key")) else none)
      (match hv : j.get "value" with
       | .undef => .raw .null
       | .arr xs => TypeNode.ofJson (.arr xs)
       | .obj fs => TypeNode.ofJson (.obj fs)
       | w => .raw w)
      (match hw : j.get "values" with
       | .arr xs => some (TypeNode.ofJsonList xs)
       | _ => none)
      (match ho : j.get "options" with
       | .arr xs => some (TypeNode.ofJsonList xs)
       | _ => none)
      (jsOr (j.get "full_format") .null)
      (jsOr (j.get "description") .null)
termination_by sizeOf json
decreasing_by
· exact JsValue.sizeOf_get_lt_of_truthy j "key" h
· rw [← hv]
  exact JsValue.sizeOf_get_lt j "value" (by rw [hv]; simp)
· rw [← hv]
  exact JsValue.sizeOf_get_lt j "value" (by rw [hv]; simp)
· have h1 := JsValue.sizeOf_get_lt j "values" (by rw [hw]; simp)
  rw [hw] at h1
  simp at h1
  omega
· have h1 := JsValue.sizeOf_get_lt j "options" (by rw [ho]; simp)
  rw [ho] at h1
  simp at h1
  omega

/-- Element handling inside the `values` / `options` loops: object elements
(arrays included, as `typeof` views them as objects) are wrapped in a new
`Type`, other elements are pushed as-is. -/
def TypeNode.ofJsonList (elems : List JsValue) : List TypeNode :=
  match elems with
  | [] => []
  | x :: xs =>
    (match hx : x with
     | .arr ys => TypeNode.ofJson (.arr ys)
     | .obj fs => TypeNode.ofJson (.obj fs)
     | w => .raw w) :: TypeNode.ofJsonList xs
termination_by sizeOf elems
decreasing_by
· rw [← hx]
  simp
  omega
· rw [← hx]
  simp
  omega
· simp
end

/-- ToPrimitive-then-ToString step applied, inside a string concatenation, to
the value a `toString()` call returned: a primitive coerces with `coerceStr`;
an array or object result is not a primitive, so the concatenation throws. -/
def JsValue.toPrimString : JsValue → Option String
  | .arr _ => none
  | .obj _ => none
  | v => some v.coerceStr

/-- `Array.prototype.join` with an arbitrary separator, as applied to the
collected `toString` results: `null` and `undefined` entries join as empty
strings, other entries by their string coercion. -/
def joinJs (sep : String) (rs : List JsValue) : String :=
  joinSep sep (rs.map fun r =>
    match r with
    | .null => ""
    | .undef => ""
    | v => v.coerceStr)

mutual
/-- `Type.prototype.toString` (lines 133-164), as `v.toString()` on a value in
a type position: a method call on a raw `null`/`undefined` throws (`none`); a
raw primitive returns its own string.  On a `Type` instance the branches are
taken in source order on `complex_type`; the final else branch returns
`this.complex_type` itself, which need not be a string, so the result type is
`Option JsValue` and callers coerce it. -/
def TypeNode.toStringJs : TypeNode → Option JsValue
  | .raw v =>
    match v with
    | .null => none
    | .undef => none
    | w => some (.str w.coerceStr)
  | .inst ct key value values options ff desc =>
    if ct.looseEqStr "array" then
      -- return this.value + "[]";
      match hv : value with
      | .raw v => some (.str (v.coerceStr ++ "[]"))
      | .inst a b c d e f g => do
          let r ← TypeNode.toStringJs (.inst a b c d e f g)
          let s ← r.toPrimString
          some (.str (s ++ "[]"))
    else if ct.looseEqStr "dictionary" then do
      -- return "table<" + this.key + ", " + this.value + ">";
      let ks ← (match hk : key with
        | none => some "null"
        | some (.raw v) => some v.coerceStr
        | some (.inst a b c d e f g) => do
            let r ← TypeNode.toStringJs (.inst a b c d e f g)
            r.toPrimString)
      let vs ← (match hv : value with
        | .raw v => some v.coerceStr
        | .inst a b c d e f g => do
            let r ← TypeNode.toStringJs (.inst a b c d e f g)
            r.toPrimString)
      some (.str ("table<" ++ ks ++ ", " ++ vs ++ ">"))
    else if ct.looseEqStr "tuple" then
      -- return "tuple<" + this.values.map(v => v.toString()).join(", ") + ">";
      match hl : values with
      | none => none
      | some l => do
          let rs ← TypeNode.elemsToString l
          some (.str ("tuple<" ++ joinJs ", " rs ++ ">"))
    else if ct.looseEqStr "union" then
      -- return this.options.map(o => o.toString()).join(" | ");
      match hl : options with
      | none => none
      | some l => do
          let rs ← TypeNode.elemsToString l
          some (.str (joinJs " | " rs))
    else if ct.looseEqStr "literal" then
      match value with
      | .raw (.str s) =>
          if desc.truthy then some (.str ("string \"\"\"" ++ desc.coerceStr ++ "\""))
          else some (.str ("string \"\"\"" ++ s ++ "\""))
      | .raw (.num _) =>
          if desc.truthy then some (.str ("number " ++ desc.coerceStr))
          else some (.str "number")
      | .raw (.bool _) =>
          if desc.truthy then some (.str ("boolean " ++ desc.coerceStr))
          else some (.str "boolean")
      | _ => some (.str "any")
    else if ct.looseEqStr "type" then
      -- return this.value.toString();
      TypeNode.toStringJs value
    else
      -- return this.complex_type;
      some ct
termination_by t => sizeOf t
decreasing_by
· rw [← hv]
  simp
  omega
· have h1 := congrArg sizeOf hk
  simp at h1
  simp
  omega
· rw [← hv]
  simp
  omega
· have h1 := congrArg sizeOf hl
  simp at h1
  simp
  omega
· have h1 := congrArg sizeOf hl
  simp at h1
  simp
  omega
· simp
  omega

/-- The element maps `vs.map(v => v.toString())`: the first throwing element
aborts the whole call. -/
def TypeNode.elemsToString : List TypeNode → Option (List JsValue)
  | [] => some []
  | t :: ts => do
      let r ← TypeNode.toStringJs t
      let rs ← TypeNode.elemsToString ts
      some (r :: rs)
termination_by ts => sizeOf ts
decreasing_by
· simp
  omega
· simp
end

/-- JS strict equality `v === s` against a string literal. -/
def JsValue.strictEqStr (v : JsValue) (s : String) : Bool :=
  match v with
  | .str t => t == s
  | _ => false

/-! ## class Image (lines 7-28) -/

structure Image where
  filename : JsValue
  caption : JsValue
deriving Repr

def Image.ofJson (json : JsValue) : Image :=
  { filename := json.get "filename"
    caption := jsOr (json.get "caption") .null }

/-! ## class BasicMember (lines 172-226) -/

structure BasicMember where
  name : JsValue
  order : JsValue
  description : JsValue
  lists : JsValue
  examples : JsValue
  images : Option (List Image)
deriving Repr

/-- Lines 208-224: `description` defaults to the empty string, `lists` and
`examples` keep any truthy value and default falsy ones to `null`; `images`
maps an array elementwise and is `null` otherwise. -/
def BasicMember.ofJson (json : JsValue) : BasicMember :=
  { name := json.get "name"
    order := json.get "order"
    description := jsOr (json.get "description") (.str "")
    lists := jsOr (json.get "lists") .null
    examples := jsOr (json.get "examples") .null
    images := match json.get "images" with
      | .arr xs => some (xs.map Image.ofJson)
      | _ => none }

/-! ## class DefineValue (lines 295-331) -/

structure DefineValue where
  name : JsValue
  order : JsValue
  description : JsValue
deriving Repr

/-- Lines 316-320: all three fields are copied as-is, with no fallback. -/
def DefineValue.ofJson (json : JsValue) : DefineValue :=
  { name := json.get "name"
    order := json.get "order"
    description := json.get "description" }

/-- Lines 326-329.  `this.description.split` throws unless the description is
a string.  Note: the type segment `"name"` is concatenated directly with the
first description line, with no separating space. -/
def DefineValue.toField (d : DefineValue) : Option String :=
  match d.description with
  | .str ds =>
      some ("---@field " ++ d.name.coerceStr ++ " \"" ++ d.name.coerceStr ++ "\"" ++ firstLine ds)
  | _ => none

/-! ## class Property (lines 394-450) -/

structure Property where
  base : BasicMember
  visibility : JsValue
  alt_name : JsValue
  override : JsValue
  type : Option TypeNode
  optional : JsValue
  dflt : JsValue
deriving Repr

/-- Lines 431-439 (the `default` field is named `dflt` here, `default` being
reserved by structure-default syntax). -/
def Property.ofJson (json : JsValue) : Property :=
  { base := BasicMember.ofJson json
    visibility := jsOr (json.get "visibility") .null
    alt_name := jsOr (json.get "alt_name") .null
    override := jsOr (json.get "override") (.bool false)
    type := if (json.get "type").truthy then some (TypeNode.ofJson (json.get "type")) else none
    optional := jsOr (json.get "optional") (.bool false)
    dflt := jsOr (json.get "default") .null }

/-! ## class Prototype (lines 457-531) -/

structure Prototype where
  base : BasicMember
  visibility : JsValue
  parent : JsValue
  abstract : JsValue
  typename : JsValue
  instance_limit : JsValue
  deprecated : JsValue
  custom_properties : JsValue
  dflt : JsValue
  properties : Option (List Property)
deriving Repr

/-- Lines 503-521.  `properties` has no else branch: it keeps its `null`
field initializer when `json.properties` is not an array. -/
def Prototype.ofJson (json : JsValue) : Prototype :=
  { base := BasicMember.ofJson json
    visibility := jsOr (json.get "visibility") .null
    parent := jsOr (json.get "parent") .null
    abstract := jsOr (json.get "abstract") (.bool false)
    typename := jsOr (json.get "typename") .null
    instance_limit := jsOr (json.get "instance_limit") .null
    deprecated := jsOr (json.get "deprecated") (.bool false)
    custom_properties := jsOr (json.get "custom_properties") .null
    dflt := jsOr (json.get "default") .null
    properties := match json.get "properties" with
      | .arr xs => some (xs.map Property.ofJson)
      | _ => none }

/-! ## class Parameter (lines 537-576) -/

structure Parameter where
  name : JsValue
  order : JsValue
  description : JsValue
  type : Option TypeNode
  optional : JsValue
deriving Repr

def Parameter.ofJson (json : JsValue) : Parameter :=
  { name := json.get "name"
    order := json.get "order"
    description := json.get "description"
    type := if (json.get "type").truthy then some (TypeNode.ofJson (json.get "type")) else none
    optional := jsOr (json.get "optional") (.bool false) }

/-! ## class ParameterGroup (lines 582-624) -/

structure ParameterGroup where
  name : JsValue
  order : JsValue
  description : JsValue
  parameters : Option (List Parameter)
deriving Repr

def ParameterGroup.ofJson (json : JsValue) : ParameterGroup :=
  { name := json.get "name"
    order := json.get "order"
    description := json.get "description"
    parameters := match json.get "parameters" with
      | .arr xs => some (xs.map Parameter.ofJson)
      | _ => none }

/-! ## class VariadicParameter (lines 630-651) -/

structure VariadicParameter where
  type : Option TypeNode
  description : JsValue
deriving Repr

def VariadicParameter.ofJson (json : JsValue) : VariadicParameter :=
  { type := if (json.get "type").truthy then some (TypeNode.ofJson (json.get "type")) else none
    description := json.get "description" }

/-! ## class MethodFormat (lines 657-678) -/

structure MethodFormat where
  takes_table : JsValue
  takes_optional : JsValue
deriving Repr

/-- Lines 673-676: `takes_table` defaults falsy values to `false`,
`takes_optional` defaults falsy values to `null`. -/
def MethodFormat.ofJson (json : JsValue) : MethodFormat :=
  { takes_table := jsOr (json.get "takes_table") (.bool false)
    takes_optional := jsOr (json.get "takes_optional") .null }

/-! ## class EventRaised (lines 684-723) -/

structure EventRaised where
  name : JsValue
  order : JsValue
  description : JsValue
  timeframe : JsValue
  optional : JsValue
deriving Repr

/-- Lines 715-721: all five fields are copied as-is. -/
def EventRaised.ofJson (json : JsValue) : EventRaised :=
  { name := json.get "name"
    order := json.get "order"
    description := json.get "description"
    timeframe := json.get "timeframe"
    optional := json.get "optional" }

/-! ## class Attribute (lines 729-804) -/

structure Attribute where
  base : BasicMember
  visibility : JsValue
  raises : Option (List EventRaised)
  subclasses : JsValue
  read_type : Option TypeNode
  write_type : Option TypeNode
  optional : JsValue
deriving Repr

/-- Lines 765-783. -/
def Attribute.ofJson (json : JsValue) : Attribute :=
  { base := BasicMember.ofJson json
    visibility := jsOr (json.get "visibility") .null
    raises := match json.get "raises" with
      | .arr xs => some (xs.map EventRaised.ofJson)
      | _ => none
    subclasses := jsOr (json.get "subclasses") .null
    read_type := if (json.get "read_type").truthy
      then some (TypeNode.ofJson (json.get "read_type")) else none
    write_type := if (json.get "write_type").truthy
      then some (TypeNode.ofJson (json.get "write_type")) else none
    optional := jsOr (json.get "optional") (.bool false) }

/-- Lines 789-802.  The type segment is the rendered read and write types
joined with a bar when both are present, the single rendered type when one
is present, and the literal token any when neither is.  A rendered result
that is itself an array or object throws when concatenated. -/
def Attribute.toField (a : Attribute) : Option String :=
  match a.base.description with
  | .str ds => do
      let typeStr ← (match a.read_type, a.write_type with
        | some r, some w => do
            let rr ← TypeNode.toStringJs r
            let rs ← rr.toPrimString
            let ww ← TypeNode.toStringJs w
            let ws ← ww.toPrimString
            some (rs ++ " | " ++ ws)
        | some r, none => do
            let rr ← TypeNode.toStringJs r
            rr.toPrimString
        | none, some w => do
            let ww ← TypeNode.toStringJs w
            ww.toPrimString
        | none, none => some "any")
      some ("---@field " ++ a.base.name.coerceStr ++ " " ++ typeStr ++ " " ++ firstLine ds)
  | _ => none

/-! ## class Method (lines 810-931) -/

structure Method where
  base : BasicMember
  visibility : JsValue
  raises : Option (List EventRaised)
  subclasses : JsValue
  parameters : Option (List Parameter)
  variant_parameter_groups : Option (List ParameterGroup)
  variant_parameter_description : JsValue
  variadic_parameter : Option VariadicParameter
  format : Option MethodFormat
  return_values : Option (List Parameter)
deriving Repr

/-- Lines 861-910. -/
def Method.ofJson (json : JsValue) : Method :=
  { base := BasicMember.ofJson json
    visibility := jsOr (json.get "visibility") .null
    raises := match json.get "raises" with
      | .arr xs => some (xs.map EventRaised.ofJson)
      | _ => none
    subclasses := jsOr (json.get "subclasses") .null
    parameters := match json.get "parameters" with
      | .arr xs => some (xs.map Parameter.ofJson)
      | _ => none
    variant_parameter_groups := match json.get "variant_parameter_groups" with
      | .arr xs => some (xs.map ParameterGroup.ofJson)
      | _ => none
    variant_parameter_description := jsOr (json.get "variant_parameter_description") .null
    variadic_parameter := if (json.get "variadic_parameter").truthy
      then some (VariadicParameter.ofJson (json.get "variadic_parameter")) else none
    format := if (json.get "format").truthy
      then some (MethodFormat.ofJson (json.get "format")) else none
    return_values := match json.get "return_values" with
      | .arr xs => some (xs.map Parameter.ofJson)
      | _ => none }

/-- One iteration of the signature loop (lines 920-926):
`parameter.name + ":" + parameter.type.toString().replaceAll("defines.", "")`.
A `null` type throws, and so does a `toString` result that is not a string,
lacking a `replaceAll` method. -/
def Parameter.renderForSig (p : Parameter) : Option String :=
  match p.type with
  | none => none
  | some t =>
    match TypeNode.toStringJs t with
    | some (.str s) => some (p.name.coerceStr ++ ":" ++ replaceAll s "defines." "")
    | _ => none

/-- The whole loop of lines 919-927: renders each parameter and joins the
pieces with a comma separator between consecutive parameters. -/
def Method.paramsStr : List Parameter → Option String
  | [] => some ""
  | [p] => p.renderForSig
  | p :: ps => do
      let s ← p.renderForSig
      let rest ← Method.paramsStr ps
      some (s ++ ", " ++ rest)

/-- Lines 916-929. -/
def Method.toField (m : Method) : Option String :=
  match m.base.description with
  | .str ds => do
      let params ← (match m.parameters with
        | none => some ""
        | some ps => Method.paramsStr ps)
      some ("---@field " ++ m.base.name.coerceStr ++ " fun(" ++ params ++ ") " ++ firstLine ds)
  | _ => none

/-! ## class Class (lines 937-1027) -/

/-- An entry of `Class.operators`: structurally a Method or an Attribute. -/
inductive Operator where
  | method (m : Method)
  | attribute (a : Attribute)
deriving Repr

/-- Classification of one JSON operator object (lines 1002-1009): an object
strictly named call, index or length becomes a Method when `parameters` or
`return_values` is truthy and an Attribute otherwise; any other name yields
nothing. -/
def Operator.classify (oj : JsValue) : Operator :=
  if (oj.get "parameters").truthy || (oj.get "return_values").truthy then
    .method (Method.ofJson oj)
  else
    .attribute (Attribute.ofJson oj)

/-- Lines 1002-1013 as a whole. -/
def Operator.ofJson (oj : JsValue) : Option Operator :=
  if (oj.get "name").strictEqStr "call"
      || (oj.get "name").strictEqStr "index"
      || (oj.get "name").strictEqStr "length" then
    some (Operator.classify oj)
  else
    none

structure Class where
  base : BasicMember
  visibility : JsValue
  parent : JsValue
  abstract : JsValue
  methods : Option (List Method)
  attributes : Option (List Attribute)
  operators : Option (List Operator)
deriving Repr

/-- Lines 973-1017.  The operators loop pushes only classified entries,
preserving input order: that is a `filterMap`. -/
def Class.ofJson (json : JsValue) : Class :=
  { base := BasicMember.ofJson json
    visibility := jsOr (json.get "visibility") .null
    parent := jsOr (json.get "parent") .null
    abstract := jsOr (json.get "abstract") (.bool false)
    methods := match json.get "methods" with
      | .arr xs => some (xs.map Method.ofJson)
      | _ => none
    attributes := match json.get "attributes" with
      | .arr xs => some (xs.map Attribute.ofJson)
      | _ => none
    operators := match json.get "operators" with
      | .arr xs => some (xs.filterMap Operator.ofJson)
      | _ => none }

/-!
## Theorems about the renderers and constructors
-/

/-- C1: a literal `Type` whose underlying value is a string renders as
`string` followed by three double quotes, then the description when one is
present (`Type` construction stores a missing or falsy description as `null`)
and the literal string value otherwise, then one closing double quote. -/
theorem claim1_literal_string_toString
    (key : Option TypeNode) (values options : Option (List TypeNode))
    (ff : JsValue) (s d : String) (hd : d ≠ "") :
    (TypeNode.toStringJs (.inst (.str "literal") key (.raw (.str s)) values options ff .null)
        = some (.str ("string \"\"\"" ++ s ++ "\""))) ∧
    (TypeNode.toStringJs (.inst (.str "literal") key (.raw (.str s)) values options ff (.str d))
        = some (.str ("string \"\"\"" ++ d ++ "\""))) := by
  constructor
  · rw [TypeNode.toStringJs.eq_def]
    simp [JsValue.looseEqStr, JsValue.truthy, JsValue.coerceStr]
  · rw [TypeNode.toStringJs.eq_def]
    simp [JsValue.looseEqStr, JsValue.truthy, JsValue.coerceStr, hd]

/-- Witness for C1: the literal with value `foo` and no description renders
as `string`, three double quotes, `foo`, closing quote. -/
theorem claim1_literal_string_toString_witness :
    TypeNode.toStringJs
        (.inst (.str "literal") none (.raw (.str "foo")) none none .null .null)
      = some (.str "string \"\"\"foo\"") :=
  (claim1_literal_string_toString none none none .null "foo" "x" (by decide)).1

/-- C2 counterexample: the bare-string shorthand does not round-trip for every
string.  Constructing a `Type` from the bare string `array` renders as
`null[]`, not `array`: the stored `complex_type` collides with the `array`
branch of `toString`, which prints the `null` value field. -/
theorem claim2_counterexample :
    TypeNode.toStringJs (TypeNode.ofJson (.str "array")) = some (.str "null[]") ∧
    ("null[]" : String) ≠ "array" := by
  constructor
  · rw [TypeNode.ofJson.eq_def]
    rw [TypeNode.toStringJs.eq_def]
    simp [JsValue.looseEqStr, JsValue.coerceStr]
  · decide

/-- C2 amended: constructing a `Type` from a bare string whose text is not one
of the six complex-type discriminators yields a leaf that renders as the raw
string unchanged (in particular the bare string `string`). -/
theorem claim2_shorthand_round_trip (s : String)
    (h1 : s ≠ "array") (h2 : s ≠ "dictionary") (h3 : s ≠ "tuple")
    (h4 : s ≠ "union") (h5 : s ≠ "literal") (h6 : s ≠ "type") :
    TypeNode.toStringJs (TypeNode.ofJson (.str s)) = some (.str s) := by
  rw [TypeNode.ofJson.eq_def]
  rw [TypeNode.toStringJs.eq_def]
  simp [JsValue.looseEqStr, h1, h2, h3, h4, h5, h6]

/-- Witness for C2: the bare string `string` round-trips. -/
theorem claim2_shorthand_round_trip_witness :
    TypeNode.toStringJs (TypeNode.ofJson (.str "string")) = some (.str "string") :=
  claim2_shorthand_round_trip "string" (by decide) (by decide) (by decide)
    (by decide) (by decide) (by decide)

/-- The element map applied to toString results that are all strings keeps
exactly those strings. -/
theorem joinJs_map_str (sep : String) (ss : List String) :
    joinJs sep (ss.map JsValue.str) = joinSep sep ss := by
  unfold joinJs
  congr 1
  induction ss with
  | nil => rfl
  | cons a ts ih => simp [ih, JsValue.coerceStr]

/-- Unfolding equation for `elemsToString` on a cons cell. -/
theorem elemsToString_cons (t : TypeNode) (ts : List TypeNode) :
    TypeNode.elemsToString (t :: ts) =
      (do
        let r ← TypeNode.toStringJs t
        let rs ← TypeNode.elemsToString ts
        some (r :: rs)) := by
  rw [TypeNode.elemsToString.eq_def]

/-- Unfolding equation for `elemsToString` on the empty list. -/
theorem elemsToString_nil : TypeNode.elemsToString [] = some [] := by
  rw [TypeNode.elemsToString.eq_def]

/-- A union `Type` whose options all render to strings renders as those
strings joined by a bar separator, with no wrapping text. -/
theorem union_render_eq_joinSep
    (key : Option TypeNode) (value : TypeNode) (values : Option (List TypeNode))
    (ff desc : JsValue) (os : List TypeNode) (ss : List String)
    (h : TypeNode.elemsToString os = some (ss.map JsValue.str)) :
    TypeNode.toStringJs (.inst (.str "union") key value values (some os) ff desc)
      = some (.str (joinSep " | " ss)) := by
  rw [TypeNode.toStringJs.eq_def]
  simp [JsValue.looseEqStr, h, joinJs_map_str]

/-- C3: a union renders as the renderings of its options joined by a bar
separator with no wrapping parentheses, so a union appearing as an option of
another union flattens textually (second conjunct). -/
theorem claim3_union_render :
    (∀ (key : Option TypeNode) (value : TypeNode) (values : Option (List TypeNode))
       (ff desc : JsValue) (os : List TypeNode) (ss : List String),
       os ≠ [] →
       TypeNode.elemsToString os = some (ss.map JsValue.str) →
       TypeNode.toStringJs (.inst (.str "union") key value values (some os) ff desc)
         = some (.str (joinSep " | " ss))) ∧
    (∀ (key key2 : Option TypeNode) (value value2 : TypeNode)
       (values values2 : Option (List TypeNode)) (ff ff2 desc desc2 : JsValue)
       (A B C : TypeNode) (a b c : String),
       TypeNode.toStringJs A = some (.str a) →
       TypeNode.toStringJs B = some (.str b) →
       TypeNode.toStringJs C = some (.str c) →
       TypeNode.toStringJs (.inst (.str "union") key value values
           (some [A, .inst (.str "union") key2 value2 values2 (some [B, C]) ff2 desc2])
           ff desc)
         = some (.str (a ++ " | " ++ b ++ " | " ++ c))) := by
  constructor
  · intro key value values ff desc os ss _ h
    exact union_render_eq_joinSep key value values ff desc os ss h
  · intro key key2 value value2 values values2 ff ff2 desc desc2 A B C a b c hA hB hC
    have hBC : TypeNode.elemsToString [B, C] = some (([b, c]).map JsValue.str) := by
      simp [elemsToString_cons, elemsToString_nil, hB, hC]
    have hU := union_render_eq_joinSep key2 value2 values2 ff2 desc2 [B, C] [b, c] hBC
    have hU2 : TypeNode.toStringJs
        (.inst (.str "union") key2 value2 values2 (some [B, C]) ff2 desc2)
        = some (.str (b ++ " | " ++ c)) := by
      simpa [joinSep] using hU
    have hout : TypeNode.elemsToString
        [A, .inst (.str "union") key2 value2 values2 (some [B, C]) ff2 desc2]
        = some (([a, b ++ " | " ++ c]).map JsValue.str) := by
      simp [elemsToString_cons, elemsToString_nil, hA, hU2]
    have hfin := union_render_eq_joinSep key value values ff desc _
      [a, b ++ " | " ++ c] hout
    simpa [joinSep, String.append_assoc] using hfin

/-- Witness for C3: the union of the bare leaves `uint8` and `string` renders
as `uint8 | string`, and the nested union of leaves flattens. -/
theorem claim3_union_render_witness :
    TypeNode.toStringJs (.inst (.str "union") none (.raw .null) none
        (some [.raw (.str "uint8"), .raw (.str "string")]) .null .null)
      = some (.str "uint8 | string") := by
  have h := (claim3_union_render).1 none (.raw .null) none .null .null
    [.raw (.str "uint8"), .raw (.str "string")] ["uint8", "string"]
    (by simp)
    (by simp [elemsToString_cons, elemsToString_nil, TypeNode.toStringJs, JsValue.coerceStr])
  simpa [joinSep] using h

/-- C4, the code evaluated at the failing input: the DefineValue field line
concatenates the closing quote of the type segment directly with the first
description line, with no separating space between them, unlike the other
field-line builders. -/
theorem claim4_defineValue_field_no_space :
    ((DefineValue.ofJson (.obj [("name", .str "north"), ("order", .num 1),
        ("description", .str "Direction north.")])).toField
      = some "---@field north \"north\"Direction north.") ∧
    ("---@field north \"north\"Direction north."
      ≠ "---@field north " ++ "\"north\"" ++ " " ++ "Direction north.") :=
  ⟨rfl, by decide⟩

/-- C9: the DefineValue constructor copies the description as-is with no
fallback, so a DefineValue built from JSON lacking a description has an
undefined description and its field renderer, which must split that
description, reaches its error branch; BasicMember by contrast defaults a
missing description to the empty string. -/
theorem claim9_defineValue_description_copied (json : JsValue)
    (h : json.get "description" = .undef) :
    (DefineValue.ofJson json).description = json.get "description" ∧
    (DefineValue.ofJson json).toField = none ∧
    (BasicMember.ofJson json).description = .str "" := by
  refine ⟨rfl, ?_, ?_⟩
  · simp [DefineValue.toField, DefineValue.ofJson, h]
  · simp [BasicMember.ofJson, h, jsOr, JsValue.truthy]

/-- Witness for C9: a DefineValue JSON with only a name yields a throwing
toField, while the BasicMember description defaults to the empty string. -/
theorem claim9_defineValue_description_copied_witness :
    (DefineValue.ofJson (.obj [("name", .str "x")])).toField = none ∧
    (BasicMember.ofJson (.obj [("name", .str "x")])).description = .str "" := by
  have h := claim9_defineValue_description_copied (.obj [("name", .str "x")]) rfl
  exact ⟨h.2.1, h.2.2⟩

/-- A falsy `full_format` stores `null`, through either constructor branch. -/
theorem TypeNode.fullFormat_ofJson (j : JsValue)
    (h : (j.get "full_format").truthy = false) :
    (TypeNode.ofJson j).fullFormat = .null := by
  rw [TypeNode.ofJson.eq_def]
  cases j <;> simp [TypeNode.fullFormat, jsOr, h]

/-- C10: logical-or defaulting collapses a present falsy scalar to the same
value as an absent field: `full_format` equal to `false` on a Type,
`instance_limit` equal to `0` on a Prototype and `takes_optional` equal to
`false` on a MethodFormat all store `null`, exactly as when the field is
missing. -/
theorem claim10_falsy_collapses_to_default (j1 j2 j3 : JsValue)
    (h1 : j1.get "full_format" = .bool false)
    (h2 : j2.get "instance_limit" = .num 0)
    (h3 : j3.get "takes_optional" = .bool false) :
    ((TypeNode.ofJson j1).fullFormat = .null ∧
      ∀ j : JsValue, j.get "full_format" = .undef →
        (TypeNode.ofJson j).fullFormat = .null) ∧
    ((Prototype.ofJson j2).instance_limit = .null ∧
      ∀ j : JsValue, j.get "instance_limit" = .undef →
        (Prototype.ofJson j).instance_limit = .null) ∧
    ((MethodFormat.ofJson j3).takes_optional = .null ∧
      ∀ j : JsValue, j.get "takes_optional" = .undef →
        (MethodFormat.ofJson j).takes_optional = .null) := by
  refine ⟨⟨?_, ?_⟩, ⟨?_, ?_⟩, ⟨?_, ?_⟩⟩
  · exact TypeNode.fullFormat_ofJson j1 (by rw [h1]; rfl)
  · intro j hj
    exact TypeNode.fullFormat_ofJson j (by rw [hj]; rfl)
  · simp [Prototype.ofJson, jsOr, h2, JsValue.truthy]
  · intro j hj
    simp [Prototype.ofJson, jsOr, hj, JsValue.truthy]
  · simp [MethodFormat.ofJson, jsOr, h3, JsValue.truthy]
  · intro j hj
    simp [MethodFormat.ofJson, jsOr, hj, JsValue.truthy]

/-- Witness for C10 at concrete inputs carrying the three falsy scalars. -/
theorem claim10_falsy_collapses_to_default_witness :
    (TypeNode.ofJson (.obj [("complex_type", .str "union"),
        ("full_format", .bool false)])).fullFormat = .null ∧
    (Prototype.ofJson (.obj [("instance_limit", .num 0)])).instance_limit = .null ∧
    (MethodFormat.ofJson (.obj [("takes_optional", .bool false)])).takes_optional
      = .null := by
  have h := claim10_falsy_collapses_to_default
    (.obj [("complex_type", .str "union"), ("full_format", .bool false)])
    (.obj [("instance_limit", .num 0)])
    (.obj [("takes_optional", .bool false)]) rfl rfl rfl
  exact ⟨h.1.1, h.2.1.1, h.2.2.1⟩

/-- C8 counterexample: a present truthy wrong-shape value for the optional
field `lists` is stored as-is instead of being replaced by the empty/null
default: a plain string value survives construction unchanged. -/
theorem claim8_counterexample :
    (BasicMember.ofJson (.obj [("name", .str "m"), ("lists", .str "oops")])).lists
        = .str "oops" ∧
    JsValue.str "oops" ≠ .null :=
  ⟨rfl, by simp⟩

/-- C8 amended: construction always succeeds; an optional field that is
missing or present with a falsy value gets its explicit empty or null default
(description the empty string, lists and examples null, images null); the
array-checked field images falls back to null on any non-array shape, truthy
or not; but lists and examples keep a present truthy value of any shape
as-is. -/
theorem claim8_optional_field_defaults (json : JsValue)
    (hl : json.get "lists" = .undef) (he : json.get "examples" = .undef)
    (hi : json.get "images" = .undef) (hd : json.get "description" = .undef) :
    ((BasicMember.ofJson json).lists = .null ∧
     (BasicMember.ofJson json).examples = .null ∧
     (BasicMember.ofJson json).images = none ∧
     (BasicMember.ofJson json).description = .str "") ∧
    (∀ (j v : JsValue), j.get "lists" = v → v.truthy = false →
      (BasicMember.ofJson j).lists = .null) ∧
    (∀ (j v : JsValue), j.get "examples" = v → v.truthy = false →
      (BasicMember.ofJson j).examples = .null) ∧
    (∀ (j v : JsValue), j.get "description" = v → v.truthy = false →
      (BasicMember.ofJson j).description = .str "") ∧
    (∀ j : JsValue, (∀ xs, j.get "images" ≠ .arr xs) →
      (BasicMember.ofJson j).images = none) ∧
    (∀ (j v : JsValue), j.get "lists" = v → v.truthy = true →
      (BasicMember.ofJson j).lists = v) ∧
    (∀ (j v : JsValue), j.get "examples" = v → v.truthy = true →
      (BasicMember.ofJson j).examples = v) := by
  refine ⟨?_, ?_, ?_, ?_, ?_, ?_, ?_⟩
  · simp [BasicMember.ofJson, hl, he, hi, hd, jsOr, JsValue.truthy]
  · intro j v hjv hv
    simp [BasicMember.ofJson, hjv, jsOr, hv]
  · intro j v hjv hv
    simp [BasicMember.ofJson, hjv, jsOr, hv]
  · intro j v hjv hv
    simp [BasicMember.ofJson, hjv, jsOr, hv]
  · intro j hj
    simp only [BasicMember.ofJson]
  · intro j v hjv hv
    simp [BasicMember.ofJson, hjv, jsOr, hv]
  · intro j v hjv hv
    simp [BasicMember.ofJson, hjv, jsOr, hv]

/-- Witness for C8: an entity JSON with only a name gets null lists; a falsy
(boolean false) lists value and an empty-string examples value also default
to null; a numeric images field falls back to none; and a truthy non-array
examples value is stored as-is. -/
theorem claim8_optional_field_defaults_witness :
    (BasicMember.ofJson (.obj [("name", .str "m")])).lists = .null ∧
    (BasicMember.ofJson (.obj [("lists", .bool false)])).lists = .null ∧
    (BasicMember.ofJson (.obj [("examples", .str "")])).examples = .null ∧
    (BasicMember.ofJson (.obj [("images", .num 5)])).images = none ∧
    (BasicMember.ofJson (.obj [("examples", .str "oops")])).examples
      = .str "oops" := by
  have h := claim8_optional_field_defaults (.obj [("name", .str "m")]) rfl rfl rfl rfl
  refine ⟨h.1.1, ?_, ?_, ?_, ?_⟩
  · exact h.2.1 (.obj [("lists", .bool false)]) (.bool false) rfl rfl
  · exact h.2.2.1 (.obj [("examples", .str "")]) (.str "") rfl rfl
  · exact h.2.2.2.2.1 (.obj [("images", .num 5)])
      (by simp [JsValue.get, JsValue.getFields])
  · exact h.2.2.2.2.2.2 (.obj [("examples", .str "oops")]) (.str "oops") rfl rfl

/-- The signature loop equals the per-parameter renderings joined by a comma
separator, when every parameter renders. -/
theorem Method.paramsStr_eq_joinSep (ps : List Parameter) (ss : List String)
    (h : ps.mapM Parameter.renderForSig = some ss) :
    Method.paramsStr ps = some (joinSep ", " ss) := by
  induction ps generalizing ss with
  | nil =>
    simp only [List.mapM_nil] at h
    simp at h
    subst h
    simp [Method.paramsStr, joinSep]
  | cons p ts ih =>
    rw [List.mapM_cons] at h
    cases hr : Parameter.renderForSig p with
    | none => rw [hr] at h; simp at h
    | some a =>
      rw [hr] at h
      cases hts : ts.mapM Parameter.renderForSig with
      | none => rw [hts] at h; simp at h
      | some tl =>
        rw [hts] at h
        simp at h
        subst h
        cases ts with
        | nil =>
          simp only [List.mapM_nil] at hts
          simp at hts
          subst hts
          simp [Method.paramsStr, hr, joinSep]
        | cons q rest =>
          have hq := ih tl hts
          rw [List.mapM_cons] at hts
          cases hrq : Parameter.renderForSig q with
          | none => rw [hrq] at hts; simp at hts
          | some b =>
            rw [hrq] at hts
            cases hrest : rest.mapM Parameter.renderForSig with
            | none => rw [hrest] at hts; simp at hts
            | some tl2 =>
              rw [hrest] at hts
              simp at hts
              subst hts
              simp [Method.paramsStr, hr, hq, joinSep]

/-- C5: for a method with a parameters list and a string description, the
field line is the field prefix, the name, a fun signature joining the
parameters in order, a space and the first description line, each parameter
rendered as its name, a colon and its rendered type with every `defines.`
token removed (second conjunct). -/
theorem claim5_method_toField
    (m : Method) (ds : String) (ps : List Parameter) (ss : List String)
    (hdesc : m.base.description = .str ds)
    (hps : m.parameters = some ps)
    (hr : ps.mapM Parameter.renderForSig = some ss) :
    (Method.toField m = some ("---@field " ++ m.base.name.coerceStr ++ " fun("
        ++ joinSep ", " ss ++ ") " ++ firstLine ds)) ∧
    (∀ (p : Parameter) (t : TypeNode) (s : String),
      p.type = some t → TypeNode.toStringJs t = some (.str s) →
      Parameter.renderForSig p
        = some (p.name.coerceStr ++ ":" ++ replaceAll s "defines." "")) := by
  constructor
  · have h1 := Method.paramsStr_eq_joinSep ps ss hr
    simp [Method.toField, hdesc, hps, h1]
  · intro p t s hpt hts
    simp [Parameter.renderForSig, hpt, hts]

/-- Witness for C5: a method with one parameter of type `defines.direction`
renders with the `defines.` prefix stripped from the signature segment. -/
theorem claim5_method_toField_witness :
    Method.toField (Method.ofJson (.obj [("name", .str "m"),
        ("description", .str "Doc."),
        ("parameters", .arr [.obj [("name", .str "a"),
          ("type", .str "defines.direction")]])]))
      = some "---@field m fun(a:direction) Doc." := by
  have hts : TypeNode.toStringJs (TypeNode.ofJson (.str "defines.direction"))
      = some (.str "defines.direction") := by
    rw [TypeNode.ofJson.eq_def]
    rw [TypeNode.toStringJs.eq_def]
    simp [JsValue.looseEqStr]
  have hp : Parameter.renderForSig
      (Parameter.ofJson (.obj [("name", .str "a"),
        ("type", .str "defines.direction")]))
      = some "a:direction" := by
    simp [Parameter.renderForSig, Parameter.ofJson, JsValue.get, JsValue.getFields,
      JsValue.truthy, hts, JsValue.coerceStr]
    decide
  have h := claim5_method_toField
    (Method.ofJson (.obj [("name", .str "m"),
        ("description", .str "Doc."),
        ("parameters", .arr [.obj [("name", .str "a"),
          ("type", .str "defines.direction")]])]))
    "Doc."
    [Parameter.ofJson (.obj [("name", .str "a"), ("type", .str "defines.direction")])]
    ["a:direction"]
    rfl rfl
    (by rw [List.mapM_cons, hp]
        decide)
  rw [h.1]
  decide

/-- C6: the Attribute field line type segment is the rendered read and write
types joined by a bar when both are present, the single rendered type when
exactly one is present, and the token any when neither is; construction from
JSON carrying only a truthy write_type yields no read type and a wrapped
write type (last conjunct). -/
theorem claim6_attribute_type_segment (a : Attribute) (ds : String)
    (hdesc : a.base.description = .str ds) :
    (∀ (r w : TypeNode) (rs ws : String),
      a.read_type = some r → a.write_type = some w →
      TypeNode.toStringJs r = some (.str rs) →
      TypeNode.toStringJs w = some (.str ws) →
      a.toField = some ("---@field " ++ a.base.name.coerceStr ++ " "
        ++ (rs ++ " | " ++ ws) ++ " " ++ firstLine ds)) ∧
    (∀ (r : TypeNode) (rs : String),
      a.read_type = some r → a.write_type = none →
      TypeNode.toStringJs r = some (.str rs) →
      a.toField = some ("---@field " ++ a.base.name.coerceStr ++ " "
        ++ rs ++ " " ++ firstLine ds)) ∧
    (∀ (w : TypeNode) (ws : String),
      a.read_type = none → a.write_type = some w →
      TypeNode.toStringJs w = some (.str ws) →
      a.toField = some ("---@field " ++ a.base.name.coerceStr ++ " "
        ++ ws ++ " " ++ firstLine ds)) ∧
    (a.read_type = none → a.write_type = none →
      a.toField = some ("---@field " ++ a.base.name.coerceStr ++ " "
        ++ "any" ++ " " ++ firstLine ds)) ∧
    (∀ json : JsValue, (json.get "read_type").truthy = false →
      (json.get "write_type").truthy = true →
      (Attribute.ofJson json).read_type = none ∧
      (Attribute.ofJson json).write_type
        = some (TypeNode.ofJson (json.get "write_type"))) := by
  refine ⟨?_, ?_, ?_, ?_, ?_⟩
  · intro r w rs ws h1 h2 h3 h4
    simp [Attribute.toField, hdesc, h1, h2, h3, h4, JsValue.toPrimString,
      JsValue.coerceStr]
  · intro r rs h1 h2 h3
    simp [Attribute.toField, hdesc, h1, h2, h3, JsValue.toPrimString,
      JsValue.coerceStr]
  · intro w ws h1 h2 h3
    simp [Attribute.toField, hdesc, h1, h2, h3, JsValue.toPrimString,
      JsValue.coerceStr]
  · intro h1 h2
    simp [Attribute.toField, hdesc, h1, h2]
  · intro json h1 h2
    constructor
    · simp [Attribute.ofJson, h1]
    · simp [Attribute.ofJson, h2]

/-- Witness for C6: an Attribute built from JSON with only a write_type
renders with the rendered write type alone. -/
theorem claim6_attribute_type_segment_witness :
    (Attribute.ofJson (.obj [("name", .str "x"), ("description", .str "D."),
        ("write_type", .str "double")])).toField
      = some "---@field x double D." := by
  have hts : TypeNode.toStringJs (TypeNode.ofJson (.str "double"))
      = some (.str "double") := by
    rw [TypeNode.ofJson.eq_def]
    rw [TypeNode.toStringJs.eq_def]
    simp [JsValue.looseEqStr]
  have h := claim6_attribute_type_segment
    (Attribute.ofJson (.obj [("name", .str "x"), ("description", .str "D."),
        ("write_type", .str "double")])) "D." rfl
  have h3 := h.2.2.1 (TypeNode.ofJson (.str "double")) "double" rfl rfl hts
  rw [h3]
  decide

/-- C7: with an array operators field, the constructed operators list is the
in-order filtered classification of the inputs: objects named call, index or
length become Methods when parameters or return_values is truthy and
Attributes otherwise, and objects with any other name are dropped. -/
theorem claim7_class_operators (json : JsValue) (xs : List JsValue)
    (h : json.get "operators" = .arr xs) :
    ((Class.ofJson json).operators = some (xs.filterMap Operator.ofJson)) ∧
    (∀ oj : JsValue,
      ((oj.get "name").strictEqStr "call" || (oj.get "name").strictEqStr "index"
        || (oj.get "name").strictEqStr "length") = true →
      (((oj.get "parameters").truthy || (oj.get "return_values").truthy) = true →
        Operator.ofJson oj = some (.method (Method.ofJson oj))) ∧
      (((oj.get "parameters").truthy || (oj.get "return_values").truthy) = false →
        Operator.ofJson oj = some (.attribute (Attribute.ofJson oj)))) ∧
    (∀ oj : JsValue,
      ((oj.get "name").strictEqStr "call" || (oj.get "name").strictEqStr "index"
        || (oj.get "name").strictEqStr "length") = false →
      Operator.ofJson oj = none) := by
  refine ⟨?_, ?_, ?_⟩
  · simp [Class.ofJson, h]
  · intro oj hname
    constructor
    · intro hc
      simp [Operator.ofJson, Operator.classify, hname, hc]
    · intro hc
      simp [Operator.ofJson, Operator.classify, hname, hc]
  · intro oj hname
    simp [Operator.ofJson, hname]

/-- Witness for C7: a call operator with parameters becomes a Method, a bare
length operator becomes an Attribute, and an unknown name is dropped. -/
theorem claim7_class_operators_witness :
    (Class.ofJson (.obj [("name", .str "C"), ("operators", .arr [
        .obj [("name", .str "call"), ("parameters", .arr [])],
        .obj [("name", .str "length")],
        .obj [("name", .str "weird")]])])).operators
      = some [.method (Method.ofJson (.obj [("name", .str "call"),
                ("parameters", .arr [])])),
              .attribute (Attribute.ofJson (.obj [("name", .str "length")]))] := by
  have h := claim7_class_operators
    (.obj [("name", .str "C"), ("operators", .arr [
        .obj [("name", .str "call"), ("parameters", .arr [])],
        .obj [("name", .str "length")],
        .obj [("name", .str "weird")]])])
    [.obj [("name", .str "call"), ("parameters", .arr [])],
     .obj [("name", .str "length")],
     .obj [("name", .str "weird")]]
    rfl
  rw [h.1]
  rfl

end Fldoc
